import Mathlib

/-!
Verification of the anondrop secret-sharing backend.

Shallow embedding of the Go source:
- `internal/models` (Secret, IsExpired, ValidateCustomName)
- `internal/encryption` (Encryptor.Encrypt / Encryptor.Decrypt over abstract
  AES-GCM / PBKDF2 / base64 primitives, whose library contracts are fields of
  `CryptoPrims`)
- `internal/storage/file` (FileStore: Store, Get, GetByCustomName, Delete,
  CleanExpired, IsCustomNameTaken)
- `internal/storage/redis` (RedisStore.CheckRateLimit)
- `internal/api/handlers/secret_handler.go` (CreateSecret, GetSecret,
  GetSecretByName, decryptAndPrepareSecret), modelled from the point after
  request binding, identifier-format validation and CAPTCHA verification.

Bytes and strings are both modelled as `List Nat` (Go freely converts
between string and []byte here); times and durations are `Int` nanoseconds,
matching Go `time.Time`/`time.Duration` arithmetic at the resolution the
code uses. Filesystem deletion failures are modelled by a predicate
`dok : Nat -> Bool` saying whether removing the file named by a given id
succeeds (`os.Remove` can fail); JSON files that fail to read or parse are
modelled as `FSFile` entries whose `parsed` field is `none`.
-/

namespace AnonDrop

abbrev Bytes := List Nat

/-- The byte value of the "." delimiter used by the handler to join and
split the three client-supplied ciphertext parts. -/
def dotB : Nat := 46

/-- Go `strings.Split(s, ".")` for the single-byte separator ".": splits at
every dot; n dots yield n+1 fields. -/
def splitDot : Bytes → List Bytes
  | [] => [[]]
  | c :: rest =>
    if c = dotB then [] :: splitDot rest
    else (c :: (splitDot rest).headD []) :: (splitDot rest).tail

/-- models.Secret: the sole persisted entity. `id` stands for the UUID,
`expiresAt` is Go `*time.Time` in nanoseconds, `encryptedData` the
server-side payload blob. -/
structure Secret where
  id : Nat
  customName : Bytes
  createdAt : Int
  expiresAt : Option Int
  isBurnAfterReading : Bool
  encryptedData : Bytes
deriving DecidableEq, Repr

/-- models.Secret.IsExpired: false when ExpiresAt is nil, else
time.Now().After(*ExpiresAt), i.e. now strictly greater. -/
def isExpired (s : Secret) (now : Int) : Bool :=
  match s.expiresAt with
  | none => false
  | some t => decide (now > t)

/-- One byte of the charset of models.CustomNameRegex, `^[a-zA-Z0-9]+$`. -/
def isAlnumB (b : Nat) : Bool :=
  (48 ≤ b && b ≤ 57) || (65 ≤ b && b ≤ 90) || (97 ≤ b && b ≤ 122)

/-- models.ValidateCustomName: empty is valid; otherwise every byte must be
alphanumeric. -/
def validName (name : Bytes) : Bool :=
  name.isEmpty || name.all isAlnumB

/-- Abstract interface to the Go standard-library crypto used by
internal/encryption: PBKDF2-HMAC-SHA256, AES-256-GCM and std base64. The
propositional fields are the library's documented contracts (GCM standard
nonce size is 12; Open inverts Seal under the same key and nonce; base64
decoding inverts encoding). -/
structure CryptoPrims where
  nonceSize : Nat
  pbkdf2 : Bytes → Bytes → Nat → Nat → Bytes
  gcmSeal : Bytes → Bytes → Bytes → Bytes
  gcmOpen : Bytes → Bytes → Bytes → Option Bytes
  b64encode : Bytes → Bytes
  b64decode : Bytes → Option Bytes
  nonceSize_eq : nonceSize = 12
  gcmOpen_gcmSeal : ∀ key nonce data, gcmOpen key nonce (gcmSeal key nonce data) = some data
  b64decode_b64encode : ∀ data, b64decode (b64encode data) = some data

/-- encryption constants: keySize = 32 (AES-256), saltSize = 16,
iterations = 10000. -/
def saltSize : Nat := 16

def keySize : Nat := 32

def pbkdf2Iterations : Nat := 10000

/-- Encryptor.deriveKey: PBKDF2 over password++serverKey and the salt. -/
def deriveKey (P : CryptoPrims) (serverKey password salt : Bytes) : Bytes :=
  P.pbkdf2 (password ++ serverKey) salt pbkdf2Iterations keySize

/-- Encryptor.Encrypt: output is salt || nonce || gcm.Seal(...). The fresh
random salt and nonce are explicit arguments (the Go code draws them from
crypto/rand). -/
def encryptBytes (P : CryptoPrims) (serverKey data password salt nonce : Bytes) : Bytes :=
  salt ++ nonce ++ P.gcmSeal (deriveKey P serverKey password salt) nonce data

/-- Encryptor.Decrypt: length checks, then slice off salt and nonce and
call gcm.Open; any failure is an error (`none`). -/
def decryptBytes (P : CryptoPrims) (serverKey encrypted password : Bytes) : Option Bytes :=
  if encrypted.length < saltSize + 12 then none
  else if encrypted.length < saltSize + P.nonceSize then none
  else
    P.gcmOpen (deriveKey P serverKey password (encrypted.take saltSize))
      ((encrypted.drop saltSize).take P.nonceSize)
      (encrypted.drop (saltSize + P.nonceSize))

/-- One entry of the storage directory: a file named `name` (the UUID stem
of "<id>.json") whose read+unmarshal result is `parsed` (`none` models a
file that cannot be read or is not valid JSON). -/
structure FSFile where
  name : Nat
  parsed : Option Secret
deriving DecidableEq, Repr

/-- FileStore state: the directory contents plus the cleanupStats fields
(lastRun, secretsCleaned, errors). -/
structure StoreState where
  files : List FSFile
  statLastRun : Int
  statSecretsCleaned : Nat
  statErrors : Nat
deriving DecidableEq, Repr

/-- FileStore.Get: read the file named by the id; absent file is (nil, nil),
an unreadable or unparsable file is an error. -/
def storeGet (st : StoreState) (id : Nat) : Except Unit (Option Secret) :=
  match st.files.find? (fun f => f.name == id) with
  | none => Except.ok none
  | some f =>
    match f.parsed with
    | none => Except.error ()
    | some s => Except.ok (some s)

/-- The linear scan shared by FileStore.GetByCustomName and
FileStore.IsCustomNameTaken: first record whose CustomName matches, files
that fail to read or parse are skipped. -/
def scanName : List FSFile → Bytes → Option Secret
  | [], _ => none
  | f :: rest, nm =>
    match f.parsed with
    | some s => if s.customName = nm then some s else scanName rest nm
    | none => scanName rest nm

/-- FileStore.GetByCustomName. -/
def getByCustomName (st : StoreState) (nm : Bytes) : Option Secret :=
  scanName st.files nm

/-- FileStore.IsCustomNameTaken: empty name is never taken; otherwise any
stored record with the name counts, with no regard to expiry. -/
def isCustomNameTaken (st : StoreState) (nm : Bytes) : Bool :=
  if nm = [] then false else (scanName st.files nm).isSome

/-- Effect of os.WriteFile on the directory: overwrite the file of that
name if present, else create it. -/
def writeFile : List FSFile → Nat → Secret → List FSFile
  | [], id, s => [⟨id, some s⟩]
  | f :: rest, id, s =>
    if f.name = id then ⟨id, some s⟩ :: rest else f :: writeFile rest id s

/-- FileStore.Store: when the custom name is non-empty and taken, fetch the
holder and fail unless it is the same secret id; then marshal and write the
file keyed by the id. The only error surfaced is the name-taken error. -/
def storeCreate (st : StoreState) (s : Secret) : Except Unit StoreState :=
  if s.customName ≠ [] then
    if isCustomNameTaken st s.customName then
      match getByCustomName st s.customName with
      | some existing =>
        if existing.id ≠ s.id then Except.error ()
        else Except.ok { st with files := writeFile st.files s.id s }
      | none => Except.ok { st with files := writeFile st.files s.id s }
    else Except.ok { st with files := writeFile st.files s.id s }
  else Except.ok { st with files := writeFile st.files s.id s }

/-- FileStore.Delete: idempotent removal of the file named by the id; when
the filesystem removal fails (`dok id = false`) the state is unchanged (the
returned error is logged and otherwise ignored by every caller). -/
def storeDelete (st : StoreState) (id : Nat) (dok : Nat → Bool) : StoreState :=
  if dok id then { st with files := st.files.filter (fun f => !(f.name == id)) } else st

/-- Whether CleanExpired actually removes this directory entry: it parses,
is expired, and os.Remove succeeds. -/
def expiredRemovable (now : Int) (dok : Nat → Bool) (f : FSFile) : Bool :=
  match f.parsed with
  | some s => isExpired s now && dok f.name
  | none => false

/-- The loop body of FileStore.CleanExpired: walk the directory, skip
unreadable or unparsable entries, remove expired ones, count removals;
a failed removal is logged and skipped without any error count. Returns
the surviving entries and deletedCount. -/
def cleanLoop : List FSFile → Int → (Nat → Bool) → List FSFile × Nat
  | [], _, _ => ([], 0)
  | f :: rest, now, dok =>
    let r := cleanLoop rest now dok
    match f.parsed with
    | none => (f :: r.1, r.2)
    | some s =>
      if isExpired s now then
        if dok f.name then (r.1, r.2 + 1) else (f :: r.1, r.2)
      else (f :: r.1, r.2)

/-- FileStore.CleanExpired: run the loop, then set
cleanupStats.secretsCleaned to deletedCount and cleanupStats.lastRun to the
run time. The errors field is not assigned. -/
def cleanExpired (st : StoreState) (now : Int) (dok : Nat → Bool) : StoreState :=
  let r := cleanLoop st.files now dok
  { files := r.1
    statLastRun := now
    statSecretsCleaned := r.2
    statErrors := st.statErrors }

/-- A sequence of periodic sweep runs, each with its own run time and
filesystem behaviour. -/
def sweepRuns (st : StoreState) : List (Int × (Nat → Bool)) → StoreState
  | [] => st
  | r :: rest => sweepRuns (cleanExpired st r.1 r.2) rest

/-- Handler environment: the security config flags the handler consults and
the Encryptor server key. CAPTCHA verification is upstream of everything
modelled here. -/
structure Env where
  sse : Bool
  serverKey : Bytes

/-- models.EncryptedContent: the client three-part ciphertext. -/
structure EncContent where
  encrypted : Bytes
  salt : Bytes
  iv : Bytes
deriving DecidableEq, Repr

/-- Outcome of GetSecret / GetSecretByName, after identifier validation and
CAPTCHA have passed: ok carries the response body (content, expiresAt,
isBurnAfterReading); the others are the 404, the 410, the 400 from
decryptAndPrepareSecret, and the 500 from a store read failure. -/
inductive ReadResult where
  | ok (content : EncContent) (expiresAt : Option Int) (burn : Bool)
  | notFound
  | expired
  | invalidData
  | internalErr
deriving DecidableEq, Repr

/-- SecretAPIHandler.decryptAndPrepareSecret: undo the optional server-side
layer (base64 decode then Decrypt with empty password), split on ".", and
require exactly three fields. -/
def decryptPrepare (P : CryptoPrims) (env : Env) (s : Secret) :
    Except Unit (EncContent × Option Int × Bool) :=
  let combined? : Option Bytes :=
    if env.sse then
      match P.b64decode s.encryptedData with
      | none => none
      | some eb => decryptBytes P env.serverKey eb []
    else some s.encryptedData
  match combined? with
  | none => Except.error ()
  | some cb =>
    match splitDot cb with
    | [a, b, c] => Except.ok (⟨a, b, c⟩, s.expiresAt, s.isBurnAfterReading)
    | _ => Except.error ()

/-- SecretAPIHandler.GetSecret from the store read onwards: absent is 404;
an expired record is deleted (by the requested id) and reported 410; then
the payload is decoded, and a burn-after-reading secret is deleted (by the
id in the record) before the response is returned. -/
def getSecretH (P : CryptoPrims) (env : Env) (st : StoreState) (id : Nat)
    (now : Int) (dok : Nat → Bool) : ReadResult × StoreState :=
  match storeGet st id with
  | Except.error _ => (ReadResult.internalErr, st)
  | Except.ok none => (ReadResult.notFound, st)
  | Except.ok (some s) =>
    if isExpired s now then (ReadResult.expired, storeDelete st id dok)
    else
      match decryptPrepare P env s with
      | Except.error _ => (ReadResult.invalidData, st)
      | Except.ok out =>
        if s.isBurnAfterReading then
          (ReadResult.ok out.1 out.2.1 out.2.2, storeDelete st s.id dok)
        else (ReadResult.ok out.1 out.2.1 out.2.2, st)

/-- SecretAPIHandler.GetSecretByName from the store read onwards; deletions
(expired or burn) use the id found in the record. -/
def getByNameH (P : CryptoPrims) (env : Env) (st : StoreState) (nm : Bytes)
    (now : Int) (dok : Nat → Bool) : ReadResult × StoreState :=
  match getByCustomName st nm with
  | none => (ReadResult.notFound, st)
  | some s =>
    if isExpired s now then (ReadResult.expired, storeDelete st s.id dok)
    else
      match decryptPrepare P env s with
      | Except.error _ => (ReadResult.invalidData, st)
      | Except.ok out =>
        if s.isBurnAfterReading then
          (ReadResult.ok out.1 out.2.1 out.2.2, storeDelete st s.id dok)
        else (ReadResult.ok out.1 out.2.1 out.2.2, st)

/-- Duration constants, Go time.Duration nanoseconds. -/
def secNs : Int := 1000000000

def minuteNs : Int := 60 * secNs

def hourNs : Int := 60 * minuteNs

def dayNs : Int := 24 * hourNs

/-- The fixed allow-list of expiry durations in CreateSecret:
10m, 30m, 1h, 24h, 7d. The Go code ranges over a map, whose iteration
order is unspecified; the acceptance windows are pairwise disjoint, so the
outcome does not depend on the order and a fixed order is faithful. -/
def allowedDurations : List Int :=
  [10 * minuteNs, 30 * minuteNs, hourNs, dayNs, 7 * dayNs]

/-- The normalization loop of CreateSecret: the first allowed duration
whose window (plus or minus one second, inclusive) contains the requested
duration gives the exact normalized expiry now + d. -/
def normLoop : List Int → Int → Int → Option Int
  | [], _, _ => none
  | d :: rest, now, t =>
    if d - secNs ≤ t - now ∧ t - now ≤ d + secNs then some (now + d)
    else normLoop rest now t

def normalizeExpiry (now t : Int) : Option Int :=
  normLoop allowedDurations now t

/-- APICreateSecretRequest after JSON binding: the three ciphertext parts,
optional custom name, optional requested expiry, optional maxViews. -/
structure CreateReq where
  enc : Bytes
  saltC : Bytes
  iv : Bytes
  customName : Bytes
  expiresAt : Option Int
  maxViews : Option Int
deriving DecidableEq, Repr

/-- Outcome of CreateSecret: ok carries the new id; the errors are the 400
for a bad custom name, the 400 for a disallowed expiry, and the 409. -/
inductive CreateResult where
  | ok (id : Nat)
  | invalidName
  | invalidExpiry
  | nameTaken
deriving DecidableEq, Repr

/-- SecretAPIHandler.CreateSecret from custom-name validation onwards
(CAPTCHA, when enabled, runs between the name check and everything else
and is upstream of this model). newId is the freshly drawn UUID, now the
request time, salt and nonce the entropy drawn by Encrypt when server-side
encryption is enabled. maxViews of exactly 1 makes the secret
burn-after-reading with no expiry; otherwise a missing expiry defaults to
now + 10 minutes and a present one must normalize against the allow-list.
The three parts are joined with "." and optionally wrapped in the server
envelope (base64 of Encrypt with empty password), then stored. -/
def createSecretH (P : CryptoPrims) (env : Env) (st : StoreState)
    (req : CreateReq) (newId : Nat) (now : Int) (salt nonce : Bytes) :
    CreateResult × StoreState :=
  if !validName req.customName then (CreateResult.invalidName, st)
  else
    let burn : Bool := req.maxViews = some 1
    let expiryE : Except Unit (Option Int) :=
      if burn then Except.ok none
      else
        match req.expiresAt with
        | none => Except.ok (some (now + 10 * minuteNs))
        | some t =>
          match normalizeExpiry now t with
          | some e => Except.ok (some e)
          | none => Except.error ()
    match expiryE with
    | Except.error _ => (CreateResult.invalidExpiry, st)
    | Except.ok ea =>
      let combined := req.enc ++ dotB :: req.saltC ++ dotB :: req.iv
      let payload :=
        if env.sse then P.b64encode (encryptBytes P env.serverKey combined [] salt nonce)
        else combined
      let secret : Secret :=
        { id := newId, customName := req.customName, createdAt := now,
          expiresAt := ea, isBurnAfterReading := burn, encryptedData := payload }
      match storeCreate st secret with
      | Except.error _ => (CreateResult.nameTaken, st)
      | Except.ok st2 => (CreateResult.ok newId, st2)

/-- One Redis rate-limit counter for a (client-ip, route, window) key:
its value and the absolute time at which its TTL expires. -/
structure RLCounter where
  count : Nat
  expireAt : Int
deriving DecidableEq, Repr

/-- The two counters Redis holds for one (client-ip, route) key; `none`
means the key is absent (never set, or its TTL elapsed). -/
structure RLState where
  hour : Option RLCounter
  minute : Option RLCounter
deriving DecidableEq, Repr

/-- Redis GET of a counter: absent reads as 0 (redis.Nil is mapped to 0 by
the handler of the error). -/
def getCount (c : Option RLCounter) : Nat :=
  match c with
  | none => 0
  | some k => k.count

/-- The INCR plus conditional EXPIRE the pipeline applies to one counter:
increment, and set the TTL to the window only when the value read before
the pipeline was 0 (first request in the window). -/
def bump (c : Option RLCounter) (window now : Int) : RLCounter :=
  match c with
  | none => ⟨1, now + window⟩
  | some k => if k.count = 0 then ⟨k.count + 1, now + window⟩ else ⟨k.count + 1, k.expireAt⟩

/-- RedisStore.CheckRateLimit for one (client-ip, route) key: reject when
the hour count has reached requestsPerHour, else when the minute count has
reached requestsPerMinute, in both cases changing nothing; otherwise
increment both counters, arming a 1-hour / 1-minute TTL on each counter
that was previously absent. -/
def checkRateLimit (st : RLState) (requestsPerHour requestsPerMinute : Nat)
    (now : Int) : Bool × RLState :=
  if requestsPerHour ≤ getCount st.hour then (false, st)
  else if requestsPerMinute ≤ getCount st.minute then (false, st)
  else (true, ⟨some (bump st.hour hourNs now), some (bump st.minute minuteNs now)⟩)

/-- Number of dot bytes in a byte string; a part embeds cleanly in the
joined payload exactly when this is 0. -/
def countDot : Bytes → Nat
  | [] => 0
  | c :: rest => (if c = dotB then 1 else 0) + countDot rest

/-- Whether a directory entry parses to a record carrying this custom
name (used to state name-uniqueness side conditions). -/
def fileHasName (f : FSFile) (nm : Bytes) : Bool :=
  match f.parsed with
  | some s => decide (s.customName = nm)
  | none => false

/-- A concrete instance of the crypto interface used to evaluate the
theorems on closed inputs: key derivation is concatenation, sealing
appends the key as a mock tag, opening strips it, base64 is the identity
embedding. It satisfies the same contracts the Go standard library
guarantees for the real primitives. -/
def toyPrims : CryptoPrims where
  nonceSize := 12
  pbkdf2 := fun pw salt _ _ => pw ++ salt
  gcmSeal := fun key _ data => data ++ key
  gcmOpen := fun key _ ct => some (ct.take (ct.length - key.length))
  b64encode := fun d => d
  b64decode := fun d => some d
  nonceSize_eq := rfl
  gcmOpen_gcmSeal := by
    intro key nonce data
    simp
  b64decode_b64encode := fun _ => rfl

/-! ## Helper lemmas -/

theorem find_write (fs : List FSFile) (id : Nat) (s : Secret) :
    (writeFile fs id s).find? (fun f => f.name == id) = some ⟨id, some s⟩ := by
  induction fs with
  | nil => simp [writeFile, List.find?]
  | cons f rest ih =>
    by_cases h : f.name = id
    · simp [writeFile, h, List.find?]
    · simp [writeFile, h, List.find?, ih]

theorem storeGet_write (st : StoreState) (id : Nat) (s : Secret) :
    storeGet { st with files := writeFile st.files id s } id = Except.ok (some s) := by
  simp [storeGet, find_write]

theorem find_after_del (fs : List FSFile) (id : Nat) :
    (fs.filter (fun f => !(f.name == id))).find? (fun f => f.name == id) = none := by
  rw [List.find?_eq_none]
  intro x hx
  rw [List.mem_filter] at hx
  simpa using hx.2

theorem scanName_del (fs : List FSFile) (nm : Bytes) (id : Nat)
    (h : ∀ f ∈ fs, fileHasName f nm = true → f.name = id) :
    scanName (fs.filter (fun f => !(f.name == id))) nm = none := by
  induction fs with
  | nil => simp [scanName]
  | cons f rest ih =>
    have hrest : ∀ g ∈ rest, fileHasName g nm = true → g.name = id := by
      intro g hg
      exact h g (List.mem_cons_of_mem f hg)
    by_cases hf : f.name = id
    · simp only [List.filter, hf]
      simpa using ih hrest
    · have hnot : fileHasName f nm = false := by
        by_contra hc
        exact hf (h f (List.mem_cons_self f rest) (by simpa using hc))
      simp only [List.filter]
      have : (!(f.name == id)) = true := by simp [hf]
      rw [this]
      cases hp : f.parsed with
      | none => simpa [scanName, hp] using ih hrest
      | some s =>
        have hne : s.customName ≠ nm := by
          simp [fileHasName, hp] at hnot
          exact hnot
        simpa [scanName, hp, hne] using ih hrest

theorem storeCreate_error_iff (st : StoreState) (s : Secret) :
    storeCreate st s = Except.error () ↔
      s.customName ≠ [] ∧ ∃ ex, scanName st.files s.customName = some ex ∧ ex.id ≠ s.id := by
  by_cases hnm : s.customName = []
  · simp [storeCreate, hnm]
  · cases hscan : scanName st.files s.customName with
    | none =>
      simp [storeCreate, hnm, isCustomNameTaken, getByCustomName, hscan]
    | some ex =>
      by_cases hid : ex.id = s.id
      · simp [storeCreate, hnm, isCustomNameTaken, getByCustomName, hscan, hid]
      · simp [storeCreate, hnm, isCustomNameTaken, getByCustomName, hscan, hid]

theorem storeCreate_ok_files (st : StoreState) (s : Secret) (st2 : StoreState)
    (h : storeCreate st s = Except.ok st2) :
    st2 = { st with files := writeFile st.files s.id s } := by
  by_cases hnm : s.customName = []
  · simp [storeCreate, hnm] at h
    exact h.symm
  · cases hscan : scanName st.files s.customName with
    | none =>
      simp [storeCreate, hnm, isCustomNameTaken, getByCustomName, hscan] at h
      exact h.symm
    | some ex =>
      by_cases hid : ex.id = s.id
      · simp [storeCreate, hnm, isCustomNameTaken, getByCustomName, hscan, hid] at h
        exact h.symm
      · simp [storeCreate, hnm, isCustomNameTaken, getByCustomName, hscan, hid] at h

theorem cleanLoop_eq (fs : List FSFile) (now : Int) (dok : Nat → Bool) :
    cleanLoop fs now dok =
      (fs.filter (fun f => !(expiredRemovable now dok f)),
       fs.countP (expiredRemovable now dok)) := by
  induction fs with
  | nil => simp [cleanLoop]
  | cons f rest ih =>
    cases hp : f.parsed with
    | none =>
      simp [cleanLoop, hp, ih, List.filter, List.countP_cons, expiredRemovable]
    | some s =>
      by_cases he : isExpired s now = true
      · by_cases hd : dok f.name = true
        · simp [cleanLoop, hp, ih, List.filter, List.countP_cons, expiredRemovable, he, hd]
        · simp only [Bool.not_eq_true] at hd
          simp [cleanLoop, hp, ih, List.filter, List.countP_cons, expiredRemovable, he, hd]
      · simp only [Bool.not_eq_true] at he
        simp [cleanLoop, hp, ih, List.filter, List.countP_cons, expiredRemovable, he]

theorem splitDot_no_dot (xs : Bytes) (h : countDot xs = 0) : splitDot xs = [xs] := by
  induction xs with
  | nil => simp [splitDot]
  | cons c rest ih =>
    have hc : ¬ c = dotB := by
      intro hc
      simp [countDot, hc] at h
    have hr : countDot rest = 0 := by
      simp [countDot, hc] at h
      exact h
    simp [splitDot, hc, ih hr]

theorem splitDot_app_dot (a b : Bytes) (h : countDot a = 0) :
    splitDot (a ++ dotB :: b) = a :: splitDot b := by
  induction a with
  | nil => simp [splitDot]
  | cons c rest ih =>
    have hc : ¬ c = dotB := by
      intro hc
      simp [countDot, hc] at h
    have hr : countDot rest = 0 := by
      simp [countDot, hc] at h
      exact h
    simp [splitDot, hc, ih hr]

theorem splitDot_length (xs : Bytes) : (splitDot xs).length = countDot xs + 1 := by
  induction xs with
  | nil => simp [splitDot, countDot]
  | cons c rest ih =>
    by_cases hc : c = dotB
    · simp [splitDot, countDot, hc, ih]
      omega
    · have hne : splitDot rest ≠ [] := by
        intro hnil
        rw [hnil] at ih
        simp at ih
      simp only [splitDot, countDot, hc, if_neg hc, ite_false]
      simp only [List.length_cons, List.length_tail, ih]
      have hlen : (splitDot rest).length = countDot rest + 1 := ih
      omega

theorem decrypt_encrypt (P : CryptoPrims) (sk data pw salt nonce : Bytes)
    (hs : salt.length = saltSize) (hn : nonce.length = P.nonceSize) :
    decryptBytes P sk (encryptBytes P sk data pw salt nonce) pw = some data := by
  have h12 : P.nonceSize = 12 := P.nonceSize_eq
  set key := deriveKey P sk pw salt with hkey
  set ct := P.gcmSeal key nonce data with hct
  have henc : encryptBytes P sk data pw salt nonce = salt ++ (nonce ++ ct) := by
    simp [encryptBytes, hkey, hct, List.append_assoc]
  rw [henc]
  have hlen : (salt ++ (nonce ++ ct)).length = saltSize + (P.nonceSize + ct.length) := by
    simp [hs, hn]
  have htake : (salt ++ (nonce ++ ct)).take saltSize = salt := by
    rw [← hs]
    exact List.take_left salt (nonce ++ ct)
  have hdrop : (salt ++ (nonce ++ ct)).drop saltSize = nonce ++ ct := by
    rw [← hs]
    exact List.drop_left salt (nonce ++ ct)
  have hnonce : ((salt ++ (nonce ++ ct)).drop saltSize).take P.nonceSize = nonce := by
    rw [hdrop, ← hn]
    exact List.take_left nonce ct
  have hcipher : (salt ++ (nonce ++ ct)).drop (saltSize + P.nonceSize) = ct := by
    have h1 : (salt ++ (nonce ++ ct)).drop (saltSize + P.nonceSize) =
        ((salt ++ (nonce ++ ct)).drop saltSize).drop P.nonceSize := by
      rw [List.drop_drop, Nat.add_comm]
    rw [h1, hdrop, ← hn]
    exact List.drop_left nonce ct
  have hno1 : ¬ (salt ++ (nonce ++ ct)).length < saltSize + 12 := by
    rw [hlen, h12]
    omega
  have hno2 : ¬ (salt ++ (nonce ++ ct)).length < saltSize + P.nonceSize := by
    rw [hlen, h12]
    omega
  rw [decryptBytes, if_neg hno1, if_neg hno2, htake, hnonce, hcipher, ← hkey]
  exact P.gcmOpen_gcmSeal key nonce data

theorem isExpired_eq_false (s : Secret) (h : s.expiresAt = none) (now : Int) :
    isExpired s now = false := by
  simp [isExpired, h]

theorem countDot_append (a b : Bytes) : countDot (a ++ b) = countDot a + countDot b := by
  induction a with
  | nil => simp [countDot]
  | cons c rest ih => simp [countDot, ih]; omega

theorem normalizeExpiry_mem (now t d : Int) (hd : d ∈ allowedDurations)
    (h1 : d - secNs ≤ t - now) (h2 : t - now ≤ d + secNs) :
    normalizeExpiry now t = some (now + d) := by
  simp only [allowedDurations, List.mem_cons, List.not_mem_nil, or_false] at hd
  rcases hd with h | h | h | h | h <;> subst h <;>
    simp only [normalizeExpiry, allowedDurations, normLoop, secNs, minuteNs, hourNs, dayNs] at * <;>
    split_ifs <;> first | rfl | omega

theorem normalizeExpiry_none (now t : Int)
    (h : ∀ d ∈ allowedDurations, t - now < d - secNs ∨ d + secNs < t - now) :
    normalizeExpiry now t = none := by
  have h1 := h (10 * minuteNs) (by simp [allowedDurations])
  have h2 := h (30 * minuteNs) (by simp [allowedDurations])
  have h3 := h hourNs (by simp [allowedDurations])
  have h4 := h dayNs (by simp [allowedDurations])
  have h5 := h (7 * dayNs) (by simp [allowedDurations])
  simp only [normalizeExpiry, allowedDurations, normLoop, secNs, minuteNs, hourNs, dayNs] at *
  split_ifs <;> first | rfl | omega

/-! ## Claims -/

/-- C5: for every plaintext P and every password W (including the empty
password), decrypting with password W the envelope produced by encrypting
P with password W returns exactly P. The fresh salt and nonce drawn by
Encrypt are arbitrary byte strings of the sizes the code generates. -/
theorem c5_encrypt_decrypt_roundtrip (P : CryptoPrims)
    (serverKey plaintext password salt nonce : Bytes)
    (hs : salt.length = saltSize) (hn : nonce.length = P.nonceSize) :
    decryptBytes P serverKey (encryptBytes P serverKey plaintext password salt nonce) password =
      some plaintext :=
  decrypt_encrypt P serverKey plaintext password salt nonce hs hn

/-- Witness for C5 at a concrete plaintext with the empty password. -/
theorem c5_encrypt_decrypt_roundtrip_witness :
    decryptBytes toyPrims [7] (encryptBytes toyPrims [7] [1, 2, 3] [] (List.replicate 16 0) (List.replicate 12 5)) [] =
      some [1, 2, 3] :=
  c5_encrypt_decrypt_roundtrip toyPrims [7] [1, 2, 3] [] (List.replicate 16 0)
    (List.replicate 12 5) (by decide) (by decide)

/-- C7: a rate-limit check on one (client-ip, route) key rejects without
touching either counter when the stored hour count has reached the hour
limit or the stored minute count has reached the minute limit; otherwise
it increments both counters, and a counter that was previously absent gets
a TTL of its window (1 hour, resp. 1 minute) from now, while a present
counter keeps its TTL. The invariant hypotheses say stored counters are
positive, which every reachable Redis state satisfies (INCR starts at 1). -/
theorem c7_rate_limit_check (st : RLState) (hLim mLim : Nat) (now : Int)
    (hinvH : ∀ c, st.hour = some c → 0 < c.count)
    (hinvM : ∀ c, st.minute = some c → 0 < c.count) :
    ((hLim ≤ getCount st.hour ∨ mLim ≤ getCount st.minute) →
        checkRateLimit st hLim mLim now = (false, st))
    ∧ (getCount st.hour < hLim → getCount st.minute < mLim →
        checkRateLimit st hLim mLim now =
          (true,
            ⟨some ⟨getCount st.hour + 1,
               match st.hour with
               | none => now + hourNs
               | some c => c.expireAt⟩,
             some ⟨getCount st.minute + 1,
               match st.minute with
               | none => now + minuteNs
               | some c => c.expireAt⟩⟩)) := by
  constructor
  · intro h
    rcases h with h | h
    · simp [checkRateLimit, h]
    · by_cases hh : hLim ≤ getCount st.hour
      · simp [checkRateLimit, hh]
      · simp [checkRateLimit, hh, h]
  · intro hh hm
    have hh2 : ¬ hLim ≤ getCount st.hour := by omega
    have hm2 : ¬ mLim ≤ getCount st.minute := by omega
    simp only [checkRateLimit, hh2, hm2, if_neg, ite_false]
    cases hhour : st.hour with
    | none =>
      cases hminute : st.minute with
      | none => simp [bump, getCount]
      | some c =>
        have hc := hinvM c hminute
        have : ¬ c.count = 0 := by omega
        simp [bump, getCount, this]
    | some c =>
      have hc := hinvH c hhour
      have hcz : ¬ c.count = 0 := by omega
      cases hminute : st.minute with
      | none => simp [bump, getCount, hcz]
      | some d =>
        have hd := hinvM d hminute
        have hdz : ¬ d.count = 0 := by omega
        simp [bump, getCount, hcz, hdz]

/-- Witness for C7: under limits 10 per hour and 5 per minute, an absent
hour counter and a minute counter at 2 admit the request, the hour counter
is created with a 1-hour TTL and the minute counter keeps its TTL. -/
theorem c7_rate_limit_check_witness :
    checkRateLimit ⟨none, some ⟨2, 50⟩⟩ 10 5 0 = (true, ⟨some ⟨1, 0 + hourNs⟩, some ⟨3, 50⟩⟩) :=
  (c7_rate_limit_check ⟨none, some ⟨2, 50⟩⟩ 10 5 0 (by intro c h; cases h)
    (by intro c h; cases h; decide)).2 (by decide) (by decide)

/-- C9: a secret whose expires_at is null, in particular every
burn-after-reading secret, is never considered expired: IsExpired is false
at every time, a single sweep and any sequence of sweeps keep its file in
the store, and neither read path can answer with the expired error for it. -/
theorem c9_null_expiry_never_expires (s : Secret) (hs : s.expiresAt = none) :
    (∀ now, isExpired s now = false)
    ∧ (∀ (st : StoreState) now dok (f : FSFile), f ∈ st.files → f.parsed = some s →
        f ∈ (cleanExpired st now dok).files)
    ∧ (∀ (st : StoreState) runs (f : FSFile), f ∈ st.files → f.parsed = some s →
        f ∈ (sweepRuns st runs).files)
    ∧ (∀ P env (st : StoreState) id now dok, storeGet st id = Except.ok (some s) →
        (getSecretH P env st id now dok).1 ≠ ReadResult.expired)
    ∧ (∀ P env (st : StoreState) nm now dok, getByCustomName st nm = some s →
        (getByNameH P env st nm now dok).1 ≠ ReadResult.expired) := by
  have hexp : ∀ now, isExpired s now = false := isExpired_eq_false s hs
  have hclean : ∀ (st : StoreState) now dok (f : FSFile), f ∈ st.files → f.parsed = some s →
      f ∈ (cleanExpired st now dok).files := by
    intro st now dok f hf hp
    simp only [cleanExpired, cleanLoop_eq]
    rw [List.mem_filter]
    refine ⟨hf, ?_⟩
    simp [expiredRemovable, hp, hexp now]
  refine ⟨hexp, hclean, ?_, ?_, ?_⟩
  · intro st runs
    induction runs generalizing st with
    | nil => intro f hf _; simpa [sweepRuns] using hf
    | cons r rest ih =>
      intro f hf hp
      exact ih (cleanExpired st r.1 r.2) f (hclean st r.1 r.2 f hf hp) hp
  · intro P env st id now dok hget
    simp only [getSecretH, hget, hexp now, Bool.false_eq_true, if_false, ite_false]
    cases hdp : decryptPrepare P env s with
    | error e => simp
    | ok out =>
      by_cases hb : s.isBurnAfterReading <;> simp [hb]
  · intro P env st nm now dok hget
    simp only [getByNameH, hget, hexp now, Bool.false_eq_true, if_false, ite_false]
    cases hdp : decryptPrepare P env s with
    | error e => simp
    | ok out =>
      by_cases hb : s.isBurnAfterReading <;> simp [hb]

/-- Witness for C9: a concrete burn-after-reading secret survives a sweep
at a store that contains it. -/
theorem c9_null_expiry_never_expires_witness :
    FSFile.mk 1 (some ⟨1, [], 0, none, true, []⟩) ∈
      (cleanExpired ⟨[⟨1, some ⟨1, [], 0, none, true, []⟩⟩], 0, 0, 0⟩ 1000 (fun _ => true)).files :=
  (c9_null_expiry_never_expires ⟨1, [], 0, none, true, []⟩ rfl).2.1
    ⟨[⟨1, some ⟨1, [], 0, none, true, []⟩⟩], 0, 0, 0⟩ 1000 (fun _ => true)
    ⟨1, some ⟨1, [], 0, none, true, []⟩⟩ (by simp) rfl

/-- C1 counterexample: the claim says a create whose custom name is held
only by expired secrets succeeds, but IsCustomNameTaken scans every stored
record with no expiry check. Here the only holder of name "a" (byte 97)
expired at time 0 and is read at time 100, yet the create of a fresh
secret (id 2) with that name fails with the name-taken error. -/
theorem c1_counterexample :
    isExpired ⟨1, [97], 0, some 0, false, []⟩ 100 = true
    ∧ storeCreate ⟨[⟨1, some ⟨1, [97], 0, some 0, false, []⟩⟩], 0, 0, 0⟩
        ⟨2, [97], 100, some 1000000000000, false, []⟩ = Except.error () := by
  exact ⟨by decide, rfl⟩

/-- C1 amended: create fails with the name-taken error exactly when the
custom name is non-empty and some stored record (expired or not — expiry
is not consulted) holds it and is a different secret; in every other case
create succeeds and persists the record keyed by its id. -/
theorem c1_create_name_uniqueness (st : StoreState) (s : Secret) :
    (storeCreate st s = Except.error () ↔
      s.customName ≠ [] ∧ ∃ ex, scanName st.files s.customName = some ex ∧ ex.id ≠ s.id)
    ∧ (∀ st2, storeCreate st s = Except.ok st2 → storeGet st2 s.id = Except.ok (some s)) := by
  constructor
  · exact storeCreate_error_iff st s
  · intro st2 h
    rw [storeCreate_ok_files st s st2 h]
    exact storeGet_write st s.id s

/-- Witness for C1 amended: a create with a fresh name into an empty store
succeeds and the record is retrievable by its id. -/
theorem c1_create_name_uniqueness_witness :
    storeGet ⟨[⟨1, some ⟨1, [97], 0, none, false, []⟩⟩], 0, 0, 0⟩ 1 =
      Except.ok (some ⟨1, [97], 0, none, false, []⟩) :=
  (c1_create_name_uniqueness ⟨[], 0, 0, 0⟩ ⟨1, [97], 0, none, false, []⟩).2
    ⟨[⟨1, some ⟨1, [97], 0, none, false, []⟩⟩], 0, 0, 0⟩ rfl

/-- C6 counterexample: the claim says a sweep deletes every expired record
and reports the number of per-record deletion failures as count_errors.
Here the store holds one record expired at time 0, swept at time 100 with
a filesystem on which every removal fails: the record survives, and the
recorded statistics show lastRun 100, secretsCleaned 0 and errors 0 — the
failed deletion is neither performed nor counted. -/
theorem c6_counterexample :
    isExpired ⟨1, [], 0, some 0, false, []⟩ 100 = true
    ∧ cleanExpired ⟨[⟨1, some ⟨1, [], 0, some 0, false, []⟩⟩], 0, 0, 0⟩ 100 (fun _ => false) =
        ⟨[⟨1, some ⟨1, [], 0, some 0, false, []⟩⟩], 100, 0, 0⟩ := by
  exact ⟨by decide, rfl⟩

/-- C6 amended: after a sweep run, exactly the records that are expired,
parsable and whose removal succeeds are deleted; every other record —
including expired records whose removal fails — is untouched; the
statistics record last_run equal to the run time and count_deleted equal
to the number of records removed in that run (0 when no record was
expired); the errors statistic is never updated by the sweep and keeps its
previous value. -/
theorem c6_sweep_spec (st : StoreState) (now : Int) (dok : Nat → Bool) :
    (cleanExpired st now dok).files = st.files.filter (fun f => !(expiredRemovable now dok f))
    ∧ (cleanExpired st now dok).statLastRun = now
    ∧ (cleanExpired st now dok).statSecretsCleaned = st.files.countP (expiredRemovable now dok)
    ∧ (cleanExpired st now dok).statErrors = st.statErrors
    ∧ ((∀ f ∈ st.files, ∀ s, f.parsed = some s → isExpired s now = false) →
        (cleanExpired st now dok).files = st.files
        ∧ (cleanExpired st now dok).statSecretsCleaned = 0) := by
  have hloop := cleanLoop_eq st.files now dok
  refine ⟨by simp [cleanExpired, hloop], rfl, by simp [cleanExpired, hloop], rfl, ?_⟩
  intro hnone
  have hfalse : ∀ f ∈ st.files, expiredRemovable now dok f = false := by
    intro f hf
    cases hp : f.parsed with
    | none => simp [expiredRemovable, hp]
    | some s => simp [expiredRemovable, hp, hnone f hf s hp]
  constructor
  · simp only [cleanExpired, hloop]
    rw [List.filter_eq_self]
    intro a ha
    simp [hfalse a ha]
  · simp only [cleanExpired, hloop]
    rw [List.countP_eq_zero]
    intro a ha
    simp [hfalse a ha]

/-- Witness for C6 amended: a sweep over a store holding one unexpired
record deletes nothing, reports 0 cleaned, and leaves the errors counter
at its previous value 3. -/
theorem c6_sweep_spec_witness :
    (cleanExpired ⟨[⟨1, some ⟨1, [], 0, some 99, false, []⟩⟩], 0, 0, 3⟩ 50 (fun _ => true)).files =
        [⟨1, some ⟨1, [], 0, some 99, false, []⟩⟩]
    ∧ (cleanExpired ⟨[⟨1, some ⟨1, [], 0, some 99, false, []⟩⟩], 0, 0, 3⟩ 50 (fun _ => true)).statSecretsCleaned = 0 :=
  (c6_sweep_spec ⟨[⟨1, some ⟨1, [], 0, some 99, false, []⟩⟩], 0, 0, 3⟩ 50 (fun _ => true)).2.2.2.2
    (by decide)

/-- C8: a read of an absent secret answers not-found and changes nothing;
a read of a present secret whose expires_at is in the past answers the
distinct expired error — never not-found, never content — after removing
the record (the file is gone whenever the filesystem removal succeeds).
Both the by-id and the by-name paths are covered. -/
theorem c8_absent_vs_expired (P : CryptoPrims) (env : Env) (st : StoreState)
    (id : Nat) (nm : Bytes) (now t : Int) (dok : Nat → Bool) (s : Secret) :
    (storeGet st id = Except.ok none → getSecretH P env st id now dok = (ReadResult.notFound, st))
    ∧ (storeGet st id = Except.ok (some s) → s.expiresAt = some t → t < now →
        getSecretH P env st id now dok = (ReadResult.expired, storeDelete st id dok)
        ∧ (dok id = true → storeGet (getSecretH P env st id now dok).2 id = Except.ok none))
    ∧ (getByCustomName st nm = none → getByNameH P env st nm now dok = (ReadResult.notFound, st))
    ∧ (getByCustomName st nm = some s → s.expiresAt = some t → t < now →
        getByNameH P env st nm now dok = (ReadResult.expired, storeDelete st s.id dok)
        ∧ (dok s.id = true → storeGet (getByNameH P env st nm now dok).2 s.id = Except.ok none)) := by
  have hdel : ∀ (j : Nat), dok j = true → storeGet (storeDelete st j dok) j = Except.ok none := by
    intro j hj
    have h2 : (storeDelete st j dok).files = st.files.filter (fun f => !(f.name == j)) := by
      simp [storeDelete, hj]
    simp only [storeGet, h2, find_after_del]
  refine ⟨?_, ?_, ?_, ?_⟩
  · intro hget
    simp [getSecretH, hget]
  · intro hget hea ht
    have hexp : isExpired s now = true := by
      simp [isExpired, hea]
      omega
    have hmain : getSecretH P env st id now dok = (ReadResult.expired, storeDelete st id dok) := by
      simp [getSecretH, hget, hexp]
    exact ⟨hmain, fun hj => by rw [hmain]; exact hdel id hj⟩
  · intro hget
    simp [getByNameH, hget]
  · intro hget hea ht
    have hexp : isExpired s now = true := by
      simp [isExpired, hea]
      omega
    have hmain : getByNameH P env st nm now dok = (ReadResult.expired, storeDelete st s.id dok) := by
      simp [getByNameH, hget, hexp]
    exact ⟨hmain, fun hj => by rw [hmain]; exact hdel s.id hj⟩

/-- Witness for C8: in a concrete store holding one record expired at time
5 and read at time 10, the by-id read answers expired and the record is
gone afterwards; an absent id answers not-found. -/
theorem c8_absent_vs_expired_witness :
    getSecretH toyPrims ⟨false, []⟩ ⟨[⟨1, some ⟨1, [], 0, some 5, false, []⟩⟩], 0, 0, 0⟩ 1 10 (fun _ => true) =
        (ReadResult.expired,
          storeDelete ⟨[⟨1, some ⟨1, [], 0, some 5, false, []⟩⟩], 0, 0, 0⟩ 1 (fun _ => true))
    ∧ getSecretH toyPrims ⟨false, []⟩ ⟨[⟨1, some ⟨1, [], 0, some 5, false, []⟩⟩], 0, 0, 0⟩ 2 10 (fun _ => true) =
        (ReadResult.notFound, ⟨[⟨1, some ⟨1, [], 0, some 5, false, []⟩⟩], 0, 0, 0⟩) :=
  ⟨((c8_absent_vs_expired toyPrims ⟨false, []⟩ ⟨[⟨1, some ⟨1, [], 0, some 5, false, []⟩⟩], 0, 0, 0⟩
      1 [] 10 5 (fun _ => true) ⟨1, [], 0, some 5, false, []⟩).2.1 rfl rfl (by decide)).1,
   (c8_absent_vs_expired toyPrims ⟨false, []⟩ ⟨[⟨1, some ⟨1, [], 0, some 5, false, []⟩⟩], 0, 0, 0⟩
      2 [] 10 5 (fun _ => true) ⟨1, [], 0, some 5, false, []⟩).1 rfl⟩

/-- C2: the first successful read of a burn-after-reading secret, by id or
by name, returns its content with the store state after the record's
deletion (which lands whenever the filesystem removal succeeds, as the
hypothesis on dok states), so every subsequent read of it, by id or by
name, answers not-found. The name-side conclusions carry the side
condition that no other stored record holds the same custom name — with a
duplicate holder a by-name read would find the duplicate, which is a
different secret. -/
theorem c2_burn_after_reading (P : CryptoPrims) (env : Env) (st : StoreState)
    (id : Nat) (now : Int) (dok : Nat → Bool) (s : Secret)
    (out : EncContent × Option Int × Bool)
    (hget : storeGet st id = Except.ok (some s))
    (hsid : s.id = id)
    (hea : s.expiresAt = none)
    (hburn : s.isBurnAfterReading = true)
    (hprep : decryptPrepare P env s = Except.ok out)
    (hdok : dok id = true) :
    getSecretH P env st id now dok = (ReadResult.ok out.1 out.2.1 out.2.2, storeDelete st id dok)
    ∧ storeGet (storeDelete st id dok) id = Except.ok none
    ∧ (∀ now2 dok2, (getSecretH P env (storeDelete st id dok) id now2 dok2).1 = ReadResult.notFound)
    ∧ ((∀ f ∈ st.files, fileHasName f s.customName = true → f.name = id) →
        ∀ now2 dok2,
          (getByNameH P env (storeDelete st id dok) s.customName now2 dok2).1 = ReadResult.notFound)
    ∧ (getByCustomName st s.customName = some s →
        getByNameH P env st s.customName now dok =
          (ReadResult.ok out.1 out.2.1 out.2.2, storeDelete st id dok)) := by
  have hdelfiles : (storeDelete st id dok).files = st.files.filter (fun f => !(f.name == id)) := by
    simp [storeDelete, hdok]
  have hgone : storeGet (storeDelete st id dok) id = Except.ok none := by
    simp only [storeGet, hdelfiles, find_after_del]
  refine ⟨?_, hgone, ?_, ?_, ?_⟩
  · simp [getSecretH, hget, isExpired_eq_false s hea now, hprep, hburn, hsid]
  · intro now2 dok2
    simp [getSecretH, hgone]
  · intro huniq now2 dok2
    have hscan : getByCustomName (storeDelete st id dok) s.customName = none := by
      simp only [getByCustomName, hdelfiles]
      exact scanName_del st.files s.customName id huniq
    simp [getByNameH, hscan]
  · intro hbyname
    simp [getByNameH, hbyname, isExpired_eq_false s hea now, hprep, hburn, hsid]

/-- Witness for C2: a concrete burn-after-reading record with payload
bytes "5.6.7"; the first by-id read returns the three parts and the next
read answers not-found. -/
theorem c2_burn_after_reading_witness :
    getSecretH toyPrims ⟨false, []⟩ ⟨[⟨1, some ⟨1, [97], 0, none, true, [5, 46, 6, 46, 7]⟩⟩], 0, 0, 0⟩
        1 0 (fun _ => true) =
      (ReadResult.ok ⟨[5], [6], [7]⟩ none true,
        storeDelete ⟨[⟨1, some ⟨1, [97], 0, none, true, [5, 46, 6, 46, 7]⟩⟩], 0, 0, 0⟩ 1 (fun _ => true))
    ∧ (getSecretH toyPrims ⟨false, []⟩
        (storeDelete ⟨[⟨1, some ⟨1, [97], 0, none, true, [5, 46, 6, 46, 7]⟩⟩], 0, 0, 0⟩ 1 (fun _ => true))
        1 99 (fun _ => true)).1 = ReadResult.notFound :=
  ⟨(c2_burn_after_reading toyPrims ⟨false, []⟩
      ⟨[⟨1, some ⟨1, [97], 0, none, true, [5, 46, 6, 46, 7]⟩⟩], 0, 0, 0⟩ 1 0 (fun _ => true)
      ⟨1, [97], 0, none, true, [5, 46, 6, 46, 7]⟩ (⟨[5], [6], [7]⟩, none, true)
      rfl rfl rfl rfl rfl rfl).1,
   (c2_burn_after_reading toyPrims ⟨false, []⟩
      ⟨[⟨1, some ⟨1, [97], 0, none, true, [5, 46, 6, 46, 7]⟩⟩], 0, 0, 0⟩ 1 0 (fun _ => true)
      ⟨1, [97], 0, none, true, [5, 46, 6, 46, 7]⟩ (⟨[5], [6], [7]⟩, none, true)
      rfl rfl rfl rfl rfl rfl).2.2.1 99 (fun _ => true)⟩

/-- C3: on create of a non-burn secret (maxViews is not exactly 1, custom
name empty so that creation cannot fail for name reasons): a missing
requested expiry is stored as exactly now + 10 minutes; a requested expiry
within plus or minus one second (inclusive) of now + d for an allowed d is
stored as exactly now + d; any other requested expiry is answered with the
validation error and the state is unchanged. -/
theorem c3_expiry_normalization (P : CryptoPrims) (env : Env) (st : StoreState)
    (e sc iv : Bytes) (mv : Option Int) (newId : Nat) (now : Int) (salt nonce : Bytes)
    (hmv : mv ≠ some 1) :
    (∃ st2, createSecretH P env st ⟨e, sc, iv, [], none, mv⟩ newId now salt nonce =
        (CreateResult.ok newId, st2)
      ∧ ∃ s, storeGet st2 newId = Except.ok (some s) ∧ s.expiresAt = some (now + 10 * minuteNs))
    ∧ (∀ t d, d ∈ allowedDurations → d - secNs ≤ t - now → t - now ≤ d + secNs →
        ∃ st2, createSecretH P env st ⟨e, sc, iv, [], some t, mv⟩ newId now salt nonce =
            (CreateResult.ok newId, st2)
          ∧ ∃ s, storeGet st2 newId = Except.ok (some s) ∧ s.expiresAt = some (now + d))
    ∧ (∀ t, (∀ d ∈ allowedDurations, t - now < d - secNs ∨ d + secNs < t - now) →
        createSecretH P env st ⟨e, sc, iv, [], some t, mv⟩ newId now salt nonce =
          (CreateResult.invalidExpiry, st)) := by
  have hb : (decide (mv = some (1 : Int))) = false := decide_eq_false hmv
  refine ⟨?_, ?_, ?_⟩
  · have key : createSecretH P env st ⟨e, sc, iv, [], none, mv⟩ newId now salt nonce =
        (CreateResult.ok newId, { st with files := (writeFile st.files newId
          { id := newId, customName := [], createdAt := now,
            expiresAt := some (now + 10 * minuteNs), isBurnAfterReading := false,
            encryptedData := if env.sse = true then
                P.b64encode (encryptBytes P env.serverKey (e ++ dotB :: (sc ++ dotB :: iv)) [] salt nonce)
              else e ++ dotB :: (sc ++ dotB :: iv) }) }) := by
      simp [createSecretH, hb, storeCreate, validName]
    exact ⟨_, key, _, storeGet_write st newId _, rfl⟩
  · intro t d hd h1 h2
    have key : createSecretH P env st ⟨e, sc, iv, [], some t, mv⟩ newId now salt nonce =
        (CreateResult.ok newId, { st with files := (writeFile st.files newId
          { id := newId, customName := [], createdAt := now,
            expiresAt := some (now + d), isBurnAfterReading := false,
            encryptedData := if env.sse = true then
                P.b64encode (encryptBytes P env.serverKey (e ++ dotB :: (sc ++ dotB :: iv)) [] salt nonce)
              else e ++ dotB :: (sc ++ dotB :: iv) }) }) := by
      simp [createSecretH, hb, storeCreate, validName, normalizeExpiry_mem now t d hd h1 h2]
    exact ⟨_, key, _, storeGet_write st newId _, rfl⟩
  · intro t h
    simp [createSecretH, hb, validName, normalizeExpiry_none now t h]

/-- Witness for C3: a requested expiry of 15 minutes is rejected with the
validation error and nothing is stored. -/
theorem c3_expiry_normalization_witness :
    createSecretH toyPrims ⟨false, []⟩ ⟨[], 0, 0, 0⟩
        ⟨[1], [2], [3], [], some (15 * minuteNs), none⟩ 7 0 [] [] =
      (CreateResult.invalidExpiry, ⟨[], 0, 0, 0⟩) :=
  (c3_expiry_normalization toyPrims ⟨false, []⟩ ⟨[], 0, 0, 0⟩ [1] [2] [3] none 7 0 [] []
    (by decide)).2.2 (15 * minuteNs) (by decide)

/-- C4 counterexample: the claim says any maxViews other than exactly 1 or
unset is rejected as invalid input; the code never rejects maxViews — a
create with maxViews 2 succeeds. -/
theorem c4_counterexample :
    (createSecretH toyPrims ⟨false, []⟩ ⟨[], 0, 0, 0⟩ ⟨[1], [2], [3], [], none, some 2⟩ 9 0 [] []).1 =
      CreateResult.ok 9 := by
  rfl

/-- C4 amended: a maxViews of exactly 1 makes the secret
burn-after-reading with a null expiry; any other maxViews value is not
rejected — the create behaves exactly as if maxViews were unset (the
secret is simply not burn-after-reading). -/
theorem c4_max_views (P : CryptoPrims) (env : Env) (st : StoreState)
    (e sc iv nm : Bytes) (ea : Option Int) (newId : Nat) (now : Int) (salt nonce : Bytes) :
    (∀ st2, createSecretH P env st ⟨e, sc, iv, nm, ea, some 1⟩ newId now salt nonce =
        (CreateResult.ok newId, st2) →
      ∃ s, storeGet st2 newId = Except.ok (some s)
        ∧ s.isBurnAfterReading = true ∧ s.expiresAt = none)
    ∧ (∀ v : Int, v ≠ 1 →
        createSecretH P env st ⟨e, sc, iv, nm, ea, some v⟩ newId now salt nonce =
        createSecretH P env st ⟨e, sc, iv, nm, ea, none⟩ newId now salt nonce) := by
  constructor
  · intro st2 h
    by_cases hv : validName nm
    · simp [createSecretH, hv] at h
      split at h
      · simp at h
      · rename_i stX heq
        injection h with h1 h2
        subst h2
        rw [storeCreate_ok_files _ _ _ heq]
        exact ⟨_, storeGet_write st _ _, rfl, rfl⟩
    · simp [createSecretH, hv] at h
  · intro v hv
    simp [createSecretH, hv]

/-- Witness for C4 amended: a create with maxViews 1 stores a
burn-after-reading record with null expiry. -/
theorem c4_max_views_witness :
    ∃ s, storeGet ⟨[⟨9, some ⟨9, [], 0, none, true, [1, 46, 2, 46, 3]⟩⟩], 0, 0, 0⟩ 9 = Except.ok (some s)
      ∧ s.isBurnAfterReading = true ∧ s.expiresAt = none :=
  (c4_max_views toyPrims ⟨false, []⟩ ⟨[], 0, 0, 0⟩ [1] [2] [3] [] none 9 0 [] []).1
    ⟨[⟨9, some ⟨9, [], 0, none, true, [1, 46, 2, 46, 3]⟩⟩], 0, 0, 0⟩ rfl

theorem decryptPrepare_split3 (P : CryptoPrims) (env : Env) (s : Secret)
    (cb salt nonce : Bytes) (a b c : Bytes)
    (hs : salt.length = saltSize) (hn : nonce.length = P.nonceSize)
    (hdata : s.encryptedData =
      (if env.sse = true then P.b64encode (encryptBytes P env.serverKey cb [] salt nonce) else cb))
    (hsp : splitDot cb = [a, b, c]) :
    decryptPrepare P env s = Except.ok (⟨a, b, c⟩, s.expiresAt, s.isBurnAfterReading) := by
  cases hsse : env.sse
  · rw [hsse] at hdata
    simp only [Bool.false_eq_true, if_false, ite_false] at hdata
    simp [decryptPrepare, hsse, hdata, hsp]
  · rw [hsse] at hdata
    simp only [if_true, ite_true] at hdata
    simp [decryptPrepare, hsse, hdata, P.b64decode_b64encode,
      decrypt_encrypt P env.serverKey cb [] salt nonce hs hn, hsp]

theorem decryptPrepare_bad_split (P : CryptoPrims) (env : Env) (s : Secret)
    (cb salt nonce : Bytes)
    (hs : salt.length = saltSize) (hn : nonce.length = P.nonceSize)
    (hdata : s.encryptedData =
      (if env.sse = true then P.b64encode (encryptBytes P env.serverKey cb [] salt nonce) else cb))
    (hlen : (splitDot cb).length ≠ 3) :
    decryptPrepare P env s = Except.error () := by
  have hmain : ∀ l : List Bytes, splitDot cb = l →
      (match l with
       | [a, b, c] => Except.ok ((⟨a, b, c⟩ : EncContent), s.expiresAt, s.isBurnAfterReading)
       | _ => Except.error ()) = (Except.error () : Except Unit (EncContent × Option Int × Bool)) := by
    intro l hl
    rcases l with _ | ⟨a, _ | ⟨b, _ | ⟨c, _ | ⟨d, rest⟩⟩⟩⟩ <;>
      first
        | rfl
        | (exfalso; apply hlen; rw [hl]; rfl)
  cases hsse : env.sse
  · rw [hsse] at hdata
    simp only [Bool.false_eq_true, if_false, ite_false] at hdata
    simp only [decryptPrepare, hsse, hdata, Bool.false_eq_true, if_false, ite_false]
    exact hmain (splitDot cb) rfl
  · rw [hsse] at hdata
    simp only [if_true, ite_true] at hdata
    simp only [decryptPrepare, hsse, hdata, P.b64decode_b64encode,
      decrypt_encrypt P env.serverKey cb [] salt nonce hs hn, if_true, ite_true]
    exact hmain (splitDot cb) rfl

/-- C10: a create whose three client parts are free of the "." byte is
read back, by id, as exactly those three parts; when any part contains a
"." the create still succeeds but every read of the secret fails with the
invalid-data-format error, because the parts are joined with "." on create
and the read splits on "." expecting exactly three fields. Stated for a
create with empty custom name, no requested expiry and no maxViews, read
back at the creation time. -/
theorem c10_payload_dot_roundtrip (P : CryptoPrims) (env : Env) (st : StoreState)
    (e sc iv : Bytes) (newId : Nat) (now : Int) (salt nonce : Bytes)
    (hs : salt.length = saltSize) (hn : nonce.length = P.nonceSize) :
    (countDot e = 0 → countDot sc = 0 → countDot iv = 0 →
      ∃ st2, createSecretH P env st ⟨e, sc, iv, [], none, none⟩ newId now salt nonce =
          (CreateResult.ok newId, st2)
        ∧ ∀ dok, getSecretH P env st2 newId now dok =
            (ReadResult.ok ⟨e, sc, iv⟩ (some (now + 10 * minuteNs)) false, st2))
    ∧ (0 < countDot e + countDot sc + countDot iv →
      ∃ st2, createSecretH P env st ⟨e, sc, iv, [], none, none⟩ newId now salt nonce =
          (CreateResult.ok newId, st2)
        ∧ ∀ dok, getSecretH P env st2 newId now dok = (ReadResult.invalidData, st2)) := by
  have key : createSecretH P env st ⟨e, sc, iv, [], none, none⟩ newId now salt nonce =
      (CreateResult.ok newId, { st with files := (writeFile st.files newId
        { id := newId, customName := [], createdAt := now,
          expiresAt := some (now + 10 * minuteNs), isBurnAfterReading := false,
          encryptedData := if env.sse = true then
              P.b64encode (encryptBytes P env.serverKey (e ++ dotB :: (sc ++ dotB :: iv)) [] salt nonce)
            else e ++ dotB :: (sc ++ dotB :: iv) }) }) := by
    simp [createSecretH, storeCreate, validName]
  have hexp : isExpired
      { id := newId, customName := [], createdAt := now,
        expiresAt := some (now + 10 * minuteNs), isBurnAfterReading := false,
        encryptedData := if env.sse = true then
            P.b64encode (encryptBytes P env.serverKey (e ++ dotB :: (sc ++ dotB :: iv)) [] salt nonce)
          else e ++ dotB :: (sc ++ dotB :: iv) } now = false := by
    have : ¬ (now > now + 10 * minuteNs) := by
      simp only [minuteNs, secNs]
      omega
    simp [isExpired, this]
  constructor
  · intro he hsc2 hiv
    refine ⟨_, key, ?_⟩
    intro dok
    have hsp : splitDot (e ++ dotB :: (sc ++ dotB :: iv)) = [e, sc, iv] := by
      rw [splitDot_app_dot e _ he, splitDot_app_dot sc _ hsc2, splitDot_no_dot iv hiv]
    have hprep := decryptPrepare_split3 P env
      { id := newId, customName := [], createdAt := now,
        expiresAt := some (now + 10 * minuteNs), isBurnAfterReading := false,
        encryptedData := if env.sse = true then
            P.b64encode (encryptBytes P env.serverKey (e ++ dotB :: (sc ++ dotB :: iv)) [] salt nonce)
          else e ++ dotB :: (sc ++ dotB :: iv) }
      (e ++ dotB :: (sc ++ dotB :: iv)) salt nonce e sc iv hs hn rfl hsp
    simp [getSecretH, storeGet_write, hexp, hprep]
  · intro hpos
    refine ⟨_, key, ?_⟩
    intro dok
    have hlen : (splitDot (e ++ dotB :: (sc ++ dotB :: iv))).length ≠ 3 := by
      rw [splitDot_length]
      simp only [countDot_append, countDot]
      simp only [dotB, if_pos]
      omega
    have hprep := decryptPrepare_bad_split P env
      { id := newId, customName := [], createdAt := now,
        expiresAt := some (now + 10 * minuteNs), isBurnAfterReading := false,
        encryptedData := if env.sse = true then
            P.b64encode (encryptBytes P env.serverKey (e ++ dotB :: (sc ++ dotB :: iv)) [] salt nonce)
          else e ++ dotB :: (sc ++ dotB :: iv) }
      (e ++ dotB :: (sc ++ dotB :: iv)) salt nonce hs hn rfl hlen
    simp [getSecretH, storeGet_write, hexp, hprep]

/-- Witness for C10: a concrete create with server-side encryption on and
dot-free parts 5, 6, 7 is read back as exactly those parts. -/
theorem c10_payload_dot_roundtrip_witness :
    ∃ st2, createSecretH toyPrims ⟨true, [9]⟩ ⟨[], 0, 0, 0⟩ ⟨[5], [6], [7], [], none, none⟩ 3 0
        (List.replicate 16 1) (List.replicate 12 2) = (CreateResult.ok 3, st2)
      ∧ ∀ dok, getSecretH toyPrims ⟨true, [9]⟩ st2 3 0 dok =
          (ReadResult.ok ⟨[5], [6], [7]⟩ (some (0 + 10 * minuteNs)) false, st2) :=
  (c10_payload_dot_roundtrip toyPrims ⟨true, [9]⟩ ⟨[], 0, 0, 0⟩ [5] [6] [7] 3 0
    (List.replicate 16 1) (List.replicate 12 2) (by decide) (by decide)).1 rfl rfl rfl

end AnonDrop
